import Mathlib

/-!
Verification development for the Stallion Analytics repository.

This file gives a shallow embedding, in Lean 4, of the statistical tool
layer and agentic pipeline of the repository (modules/analytics_engine.py,
modules/forecaster.py, modules/segmentor.py, modules/copilot.py,
modules/planner.py, modules/workspace.py), and proves or refutes the
frozen specification claims about them.

Modelling conventions:
- Python strings are embedded as `List Char`; `str.strip`, `str.replace`,
  `str.split`, `str.find`/`str.rfind` are mirrored by executable functions.
- pandas DataFrames are embedded as a list of column names plus a list of
  rows of `Cell`s, where a `Cell` is missing (`na`), numeric (an exact
  rational, standing in for the float), a date (a day number), or a string.
  `pd.to_datetime(errors = coerce)` maps a `date` cell to its day number
  and anything else to missing; `pd.to_numeric(errors = coerce)` likewise
  for `num` cells.  Dates use a uniform 31-day month: the month of day `d`
  is `d / 31`; no claim depends on calendar irregularities.
- Calls into scikit-learn / statsmodels (IsolationForest, KMeans,
  ExponentialSmoothing) are not part of the repository; they are modelled
  as explicit function parameters or by their documented success
  conditions, as noted at each definition.
-/

namespace Stallion

/-! ## Python text primitives -/

/-- Characters removed by python `str.strip()`. -/
def isPyWs (c : Char) : Bool :=
  c = ' ' || c = '\t' || c = '\n' || c = '\r' || c = '\x0b' || c = '\x0c'

/-- Left brace character (written by code point). -/
def lbrace : Char := '\x7b'

/-- Right brace character (written by code point). -/
def rbrace : Char := '\x7d'

/-- python `str.strip()`. -/
def pyStrip (s : List Char) : List Char :=
  ((s.dropWhile isPyWs).reverse.dropWhile isPyWs).reverse

/-- Fuelled core of `removePat`; the fuel (an upper bound on the scan
length, one unit per consumed character) makes the recursion structural
and hence kernel-computable. -/
def removePatFuel (p : List Char) : ℕ → List Char → List Char
  | _, [] => []
  | 0, s => s
  | fuel + 1, c :: cs =>
    if p ≠ [] ∧ p.isPrefixOf (c :: cs) then
      removePatFuel p fuel ((c :: cs).drop p.length)
    else
      c :: removePatFuel p fuel cs

/-- python `str.replace(pat, "")`: scan left to right, removing each
non-overlapping occurrence of `pat`. -/
def removePat (p s : List Char) : List Char :=
  removePatFuel p s.length s

/-- python `str.split(sep)` for a one-character separator. -/
def splitOnChar (sep : Char) : List Char → List (List Char)
  | [] => [[]]
  | c :: cs =>
    match splitOnChar sep cs with
    | [] => [[]]
    | h :: t => if c = sep then [] :: h :: t else (c :: h) :: t

/-- python `str.find(c)`: lowest index of `c`, or `none` for -1. -/
def pyFind (c : Char) (s : List Char) : Option Nat :=
  s.findIdx? (· = c)

/-- python `str.rfind(c)`: highest index of `c`, or `none` for -1. -/
def pyRfind (c : Char) (s : List Char) : Option Nat :=
  (s.reverse.findIdx? (· = c)).map (fun i => s.length - 1 - i)

/-- python `str.upper()` (character-wise). -/
def pyUpper (s : List Char) : List Char := s.map Char.toUpper

/-! ## Workspace persistence (modules/workspace.py)

The persisted store is a flat JSON object mapping an id to a record; it is
embedded as an association list from ids to records (JSON object keys are
unique, recorded as a `Nodup` hypothesis where needed).  `delete_work`
reads the store, deletes the key if present and writes the store back,
returning `True`; otherwise it returns `False` without writing. -/

/-- python `del data[k]` on a JSON-object association list. -/
def eraseKey {V : Type} (k : String) : List (String × V) → List (String × V)
  | [] => []
  | (a, v) :: t => if a = k then t else (a, v) :: eraseKey k t

/-- Key lookup in the persisted store. -/
def lookupKey {V : Type} (k : String) : List (String × V) → Option V
  | [] => none
  | (a, v) :: t => if a = k then some v else lookupKey k t

/-- `StallionWorkspace.delete_work`: returns the flag `True`/`False` and
the store contents as persisted after the call (state-passing embedding of
the read-modify-write of the JSON file). -/
def deleteWork {V : Type} (store : List (String × V)) (workId : String) :
    Bool × List (String × V) :=
  if (lookupKey workId store).isSome then
    (true, eraseKey workId store)
  else
    (false, store)

/-! ## Tabular data model -/

/-- One DataFrame cell: missing (NaN/NaT/None), an exact numeric value, a
date given as an absolute day number, or a string. -/
inductive Cell where
  | na : Cell
  | num (q : ℚ) : Cell
  | date (d : ℕ) : Cell
  | str (s : String) : Cell
deriving DecidableEq

/-- A DataFrame: ordered column names and rows of cells. -/
structure Frame where
  cols : List String
  rows : List (List Cell)
deriving DecidableEq

/-- Index of a column name, `none` when absent. -/
def colIdx (f : Frame) (c : String) : Option ℕ := f.cols.findIdx? (· = c)

/-- The cell of `row` in column number `i` (missing when the row is
ragged/short). -/
def cellAt (row : List Cell) (i : ℕ) : Cell := row.getD i .na

/-- `pd.to_numeric(x, errors = coerce)` on one cell. -/
def toNum : Cell → Option ℚ
  | .num q => some q
  | _ => none

/-- `pd.to_datetime(x, errors = coerce)` on one cell: the day number of a
date cell; anything unparseable is missing. -/
def toDate : Cell → Option ℕ
  | .date d => some d
  | _ => none

/-- Month of an absolute day number (uniform 31-day months). -/
def monthOf (d : ℕ) : ℕ := d / 31

/-! ## StatTools: `StallionAnalyticsEngine.detect_anomalies`
(modules/analytics_engine.py lines 17-50)

The IsolationForest fit is external library code; it is passed in as a
parameter `iso` mapping the extracted numeric column to a per-row anomaly
flag (`true` for the library's `-1`).  The blanket `try/except` of the
source is reflected by the total result type: library failures surface as
`failed`, never as an exception. -/

/-- Result of `detect_anomalies`, by the distinct summary strings the
source returns. -/
inductive AnomalyOut where
  | noData                                -- "No data for anomaly detection."
  | notEnough                             -- "Not enough data points for reliable anomaly detection."
  | failed                                -- "Anomaly Detection Failed: ..."
  | noAnomalies                           -- "No significant statistical anomalies detected."
  | found (count : ℕ) (top : List (Cell × ℚ))  -- count and top-3 (label, value) lines
deriving DecidableEq

/-- Insertion sort of (row, value) pairs by value descending, mirroring
`sort_values(by=value_col, ascending=False)`. -/
def insertDesc (x : List Cell × ℚ) : List (List Cell × ℚ) → List (List Cell × ℚ)
  | [] => [x]
  | y :: t => if y.2 ≤ x.2 then x :: y :: t else y :: insertDesc x t

/-- Sort rows by value, descending. -/
def sortDescBy : List (List Cell × ℚ) → List (List Cell × ℚ)
  | [] => []
  | x :: t => insertDesc x (sortDescBy t)

/-- `StallionAnalyticsEngine.detect_anomalies`.  `iso` stands for
`IsolationForest(contamination, random_state=42).fit_predict` on the
dropna-filtered value column; its flags are positional. -/
def detectAnomalies (iso : List ℚ → List Bool) (f : Frame) (valueCol : String) :
    AnomalyOut :=
  if f.rows = [] ∨ (colIdx f valueCol).isNone then .noData
  else
    match colIdx f valueCol with
    | none => .noData
    | some vi =>
      -- data = df[[value_col]].dropna(): rows whose value cell is not NaN
      let kept := f.rows.filter (fun r => cellAt r vi ≠ .na)
      if kept.length < 10 then .notEnough
      else
        -- a non-numeric (string) cell in the kept column makes the
        -- library fit raise; the except branch catches it
        if ¬ kept.all (fun r => (toNum (cellAt r vi)).isSome) then .failed
        else
          let vals := kept.map (fun r => (toNum (cellAt r vi)).getD 0)
          let flags := iso vals
          let anomalies := ((kept.zip flags).filter (fun p => p.2)).map Prod.fst
          if anomalies = [] then .noAnomalies
          else
            let sorted := sortDescBy (anomalies.map
              (fun r => (r, (toNum (cellAt r vi)).getD 0)))
            .found anomalies.length
              ((sorted.take 3).map (fun p => (cellAt p.1 0, p.2)))

/-! ## StatTools: `StallionAnalyticsEngine.generate_forecast`
(modules/analytics_engine.py lines 52-83)

`ExponentialSmoothing(trend=add, seasonal=add, seasonal_periods=12).fit`
requires at least two full seasonal cycles (24 monthly observations);
with fewer it raises, and the source's `except` branch turns that into
the "Forecasting Failed" string.  The model fit itself is outside the
repository, so the embedding records only the guard-relevant outcome. -/

/-- Result of the StatTools `generate_forecast`, by the distinct summary
strings the source returns. -/
inductive ForecastAOut where
  | noData                      -- "No data for forecasting."
  | tooShort                    -- "Data too short for seasonal forecasting (need 12+ points)."
  | failed                      -- "Forecasting Failed: ..."
  | fitted (nMonths : ℕ)        -- "🔮 Forecast (...)" with nMonths monthly buckets behind it
deriving DecidableEq

/-- Rows of `f` whose cell in column `di` parses as a date, paired with
the parsed day number (the dropna after coercion). -/
def validDateRows (f : Frame) (di : ℕ) : List (ℕ × List Cell) :=
  f.rows.filterMap (fun r => (toDate (cellAt r di)).map (fun d => (d, r)))

/-- Number of monthly buckets `resample('ME').sum()` produces for the
day numbers `days`: one bucket per month from the first to the last
observed month. -/
def monthSpan (days : List ℕ) : ℕ :=
  let months := days.map monthOf
  months.foldr max 0 + 1 - months.foldr min (months.headD 0)

/-- The number of monthly points the StatTools forecast works with on
frame `f`: buckets of the coerced, dropna-filtered date column. -/
def monthlyPoints (f : Frame) (dateCol : String) : ℕ :=
  match colIdx f dateCol with
  | none => 0
  | some di => monthSpan ((validDateRows f di).map Prod.fst)

/-- `StallionAnalyticsEngine.generate_forecast`. -/
def generateForecastA (f : Frame) (dateCol valueCol : String) : ForecastAOut :=
  if f.rows = [] ∨ (colIdx f dateCol).isNone then .noData
  else
    match colIdx f dateCol with
    | none => .noData
    | some di =>
      let valid := validDateRows f di
      if valid.length < 12 then .tooShort
      else
        match colIdx f valueCol with
        | none => .failed  -- KeyError on df[value_col], caught by the except
        | some vi =>
          -- resample('ME').sum() gives one bucket per month between the
          -- first and last observed month
          let nMonths := monthSpan (valid.map Prod.fst)
          -- object-dtype values make the fit raise (caught)
          if ¬ valid.all (fun p => cellAt p.2 vi = .na ∨ (toNum (cellAt p.2 vi)).isSome)
          then .failed
          else if nMonths < 24 then .failed  -- fit raises: < 2 seasonal cycles
          else .fitted nMonths

/-! ## StatTools: `StallionAnalyticsEngine.check_correlations`
(modules/analytics_engine.py lines 85-113)

Pearson correlation of two float columns is generally irrational, so the
`abs(score) > 0.75` test and the sign label are embedded in exact
arithmetic: with `cov` the sum of products of deviations and `vx`, `vy`
the sums of squared deviations, `abs(r) > 3/4` iff
`16 * cov^2 > 9 * vx * vy` (and `vx * vy > 0`), and `r > 0` iff
`cov > 0`, because `r = cov / sqrt(vx * vy)` with a positive square
root.  A constant column gives a NaN score, which fails the strict `>`
test, matching `vx * vy = 0` here.  Numeric-dtype columns are those all
of whose cells are numeric or missing, and `corr` uses the pairwise
complete observations of the two columns. -/

/-- The named numeric-dtype columns of a frame (`select_dtypes`), each as
its list of optional values. -/
def numericCols (f : Frame) : List (String × List (Option ℚ)) :=
  (f.cols.enum.filter
      (fun ci => f.rows.all (fun r => cellAt r ci.1 = .na ∨ (toNum (cellAt r ci.1)).isSome))).map
    (fun ci => (ci.2, f.rows.map (fun r => toNum (cellAt r ci.1))))

/-- Pairwise complete observations of two optional-valued columns. -/
def pairObs (xs ys : List (Option ℚ)) : List (ℚ × ℚ) :=
  (xs.zip ys).filterMap (fun p =>
    match p.1, p.2 with
    | some a, some b => some (a, b)
    | _, _ => none)

/-- Sum of a list of rationals. -/
def qsum (l : List ℚ) : ℚ := l.foldr (· + ·) 0

/-- Sum of products of deviations from the means, times `n^2` (scaling
by the positive `n^2` clears denominators and preserves every sign and
ratio test used below): `n^2 * Σ (a - ā)(b - b̄) = n * Σ ab - Σa * Σb`. -/
def covN (obs : List (ℚ × ℚ)) : ℚ :=
  (obs.length : ℚ) * qsum (obs.map (fun p => p.1 * p.2))
    - qsum (obs.map Prod.fst) * qsum (obs.map Prod.snd)

/-- `n^2 * Σ (a - ā)^2 = n * Σ a^2 - (Σ a)^2`. -/
def varN (l : List ℚ) : ℚ :=
  (l.length : ℚ) * qsum (l.map (fun a => a * a)) - qsum l * qsum l

/-- `abs(corr(xs, ys)) > 0.75`, in exact arithmetic. -/
def strongPair (xs ys : List (Option ℚ)) : Bool :=
  let obs := pairObs xs ys
  let cov := covN obs
  let vx := varN (obs.map Prod.fst)
  let vy := varN (obs.map Prod.snd)
  0 < vx * vy ∧ 9 * (vx * vy) < 16 * (cov * cov)

/-- `corr(xs, ys) > 0` (the Positive/Negative label). -/
def posPair (xs ys : List (Option ℚ)) : Bool :=
  0 < covN (pairObs xs ys)

/-- The lower-triangle iteration order of the source's nested loop:
`for i in range(n): for j in range(i)`. -/
def lowerPairs (n : ℕ) : List (ℕ × ℕ) :=
  (List.range n).flatMap (fun i => (List.range i).map (fun j => (i, j)))

/-- One reported correlation insight: the two column names and whether
the relation is labeled Positive. -/
structure CorrInsight where
  col1 : String
  col2 : String
  positive : Bool
deriving DecidableEq

/-- Result of `check_correlations`. -/
inductive CorrOut where
  | notEnoughNumeric            -- "Not enough numeric columns for correlation."
  | noStrong                    -- "No strong correlations (>0.75) detected."
  | failed                      -- "Correlation Check Failed: ..."
  | insights (l : List CorrInsight)  -- "🔗 Key Correlations:" plus one line each
deriving DecidableEq

/-- Name of the `i`-th numeric column. -/
def colName (f : Frame) (i : ℕ) : String := ((numericCols f).getD i ("", [])).1

/-- Optional values of the `i`-th numeric column. -/
def colVals (f : Frame) (i : ℕ) : List (Option ℚ) := ((numericCols f).getD i ("", [])).2

/-- The qualifying pairs `(i, j)`, `j < i`, in the source's iteration
order. -/
def qualifyingPairs (f : Frame) : List (ℕ × ℕ) :=
  (lowerPairs (numericCols f).length).filter (fun p =>
    strongPair (colVals f p.1) (colVals f p.2))

/-- The insight line built for the column pair `(i, j)`. -/
def mkInsight (f : Frame) (p : ℕ × ℕ) : CorrInsight :=
  { col1 := colName f p.1
    col2 := colName f p.2
    positive := posPair (colVals f p.1) (colVals f p.2) }

/-- `StallionAnalyticsEngine.check_correlations`. -/
def checkCorrelations (f : Frame) : CorrOut :=
  if (numericCols f).length < 2 then .notEnoughNumeric
  else
    let insights := (qualifyingPairs f).map (mkInsight f)
    if insights = [] then .noStrong
    else .insights (insights.take 5)

/-! ## Generic insertion sort (used for the pandas sorts) -/

/-- Insert `x` into `l` before the first element `y` with `le x y`. -/
def insertLeBy {α : Type} (le : α → α → Bool) (x : α) : List α → List α
  | [] => [x]
  | y :: t => if le x y then x :: y :: t else y :: insertLeBy le x t

/-- Insertion sort by the comparison `le`. -/
def sortLeBy {α : Type} (le : α → α → Bool) : List α → List α
  | [] => []
  | x :: t => insertLeBy le x (sortLeBy le t)

/-! ## Standalone forecaster: `StallionForecaster.generate_forecast`
(modules/forecaster.py lines 19-118)

The embedding covers the decision pipeline the claims are about: coerce
`x_col` to dates, drop invalid rows, sort by date, pick the cadence and
seasonal cycle, and group-and-sum by date (the later `asfreq` gap filling,
model fit and output framing are downstream of everything the claims
state about this pipeline).  The growth-scenario step is embedded
separately below, over the base forecast series it is applied to. -/

/-- Forecast cadence chosen by the heuristic. -/
inductive Freq where
  | daily
  | monthly
deriving DecidableEq

/-- The prepared series and the heuristic decisions. -/
structure PrepOut where
  nRows : ℕ                  -- len(data) after coercion and dropna
  freq : Freq
  cycle : ℕ
  collapsed : List (ℕ × ℚ)   -- groupby(x_col)[y_col].sum(), keyed by day
deriving DecidableEq

/-- Group-and-sum a (date, value) list by date, keys in order of first
appearance (the input is date-sorted, so this is ascending order). -/
def groupSumByDate (l : List (ℕ × ℚ)) : List (ℕ × ℚ) :=
  ((l.map Prod.fst).dedup).map
    (fun d => (d, qsum ((l.filter (fun p => p.1 = d)).map Prod.snd)))

/-- The data-preparation and decision stage of
`StallionForecaster.generate_forecast`.  `none` is the `(None, message)`
fail-soft outcome (empty coerced data, or a `KeyError` on a missing
column caught by the enclosing `except`). -/
def forecasterPrep (f : Frame) (xCol yCol : String) : Option PrepOut :=
  match colIdx f xCol, colIdx f yCol with
  | some xi, some yi =>
    let valid := sortLeBy (fun a b => a.1 ≤ b.1) (validDateRows f xi)
    if valid = [] then none    -- "Invalid Date Column"
    else
      let freq := if 60 < valid.length then Freq.daily else Freq.monthly
      let cycle := if 60 < valid.length then 7 else 12
      let dv := valid.map (fun p => (p.1, (toNum (cellAt p.2 yi)).getD 0))
      some { nRows := valid.length, freq := freq, cycle := cycle,
             collapsed := groupSumByDate dv }
  | _, _ => none

/-- `np.linspace(a, b, n)`: `n` evenly spaced values from `a` to `b`
inclusive; for `n = 1` numpy returns `[a]`, matched here by the rational
convention `x / 0 = 0`. -/
def linspace (a b : ℚ) (n : ℕ) : List ℚ :=
  (List.range n).map (fun i => a + (b - a) * ((i : ℕ) : ℚ) / ((n : ℚ) - 1))

/-- The growth-scenario step (modules/forecaster.py lines 101-106):
`forecast_values * np.linspace(1, 1 + growth_factor, periods)` when the
factor is non-zero, the base series unchanged otherwise. -/
def applyScenario (periods : ℕ) (growthFactor : ℚ) (base : List ℚ) : List ℚ :=
  if growthFactor = 0 then base
  else base.zipWith (· * ·) (linspace 1 (1 + growthFactor) periods)

/-! ## Planner plan parsing and tool routing
(modules/planner.py lines 110-159)

The Reasoning phase of `StallionPlanner.generate_enterprise_report`
splits the raw model text into lines, turns each line containing the
`|` separator into a plan step (cleaned SQL, upper-cased tool tag) and
skips the rest; tools are then matched by substring on the upper-cased
tag. -/

/-- The fenced-code markers and separators the source strips. -/
def fenceSqlPat : List Char := "```sql".toList

/-- The bare fenced-code marker. -/
def fencePat3 : List Char := "```".toList

/-- The fenced-code marker with a json language tag. -/
def fenceJsonPat : List Char := "```json".toList

/-- Semicolon pattern for `replace(";", "")`. -/
def semiPat : List Char := ";".toList

/-- One parsed plan step. -/
structure PlanStep where
  sql : List Char
  tool : List Char
deriving DecidableEq

/-- Build the step of one separator-containing line:
`parts = line.split("|")`, SQL from `parts[0]`, tool from `parts[1]`. -/
def mkStep (line : List Char) : PlanStep :=
  let parts := splitOnChar '|' line
  { sql := removePat semiPat (removePat fencePat3 (removePat fenceSqlPat
      (pyStrip (parts.headD []))))
    tool := pyUpper (pyStrip (parts.getD 1 [])) }

/-- The source's `for line in lines` loop: a line containing `|` becomes
a step, any other line is skipped. -/
def planLoop : List (List Char) → List PlanStep
  | [] => []
  | l :: ls => if '|' ∈ l then mkStep l :: planLoop ls else planLoop ls

/-- Plan parsing: `raw_plan.strip().split("\n")`, then the loop. -/
def parsePlan (raw : List Char) : List PlanStep :=
  planLoop (splitOnChar '\n' (pyStrip raw))

/-- The tool a plan step is routed to. -/
inductive Tool where
  | segmentation
  | anomaly
  | forecast
  | correlation
  | noTool
deriving DecidableEq

/-- Tool names as matched by the source. -/
def segWord : List Char := "SEGMENTATION".toList

/-- "ANOMALY". -/
def anoWord : List Char := "ANOMALY".toList

/-- "FORECAST". -/
def forWord : List Char := "FORECAST".toList

/-- "CORRELATION". -/
def corWord : List Char := "CORRELATION".toList

/-- Tool routing on the upper-cased tool tag of a step:
`"SEGMENTATION" in tool`, `elif "ANOMALY" in tool and len(df.columns) >= 2`,
and so on; no match leaves the step with no tool insight. -/
def routeTool (tool : List Char) (ncols : ℕ) : Tool :=
  if segWord <:+: tool then .segmentation
  else if anoWord <:+: tool ∧ 2 ≤ ncols then .anomaly
  else if forWord <:+: tool ∧ 2 ≤ ncols then .forecast
  else if corWord <:+: tool then .correlation
  else .noTool

/-! ## Segmentation engine: `StallionSegmentor.execute_segmentation`
(modules/segmentor.py lines 72-177)

KMeans, the log1p transform and the standard scaler are library code;
they are absorbed into one explicit parameter
`impl : feature matrix → n_clusters → random seed → labels`, a
deterministic function because every library stage is deterministic given
the seed (`random_state=42, n_init=10`).  pandas sorts group keys; the
embedding keeps groups in first-appearance order, which no claim about
this function can observe. -/

/-- The structured strategy dict returned by `suggest_strategy`. -/
structure SegConfig where
  strategyType : Option String
  idCol : Option String
  dateCol : Option String
  amountCol : Option String
  featureCols : List String
deriving DecidableEq

/-- python truthiness of an optional string field (`None` and `""` are
falsy). -/
def pyTruthy (o : Option String) : Option String :=
  o.bind (fun s => if s = "" then none else some s)

/-- The distinct failure messages of `execute_segmentation`. -/
inductive SegErr where
  | noData                    -- "No data to segment."
  | rfmMissing                -- "RFM Strategy missing required columns in config."
  | genMissing                -- "Generic Strategy missing feature columns."
  | colsNotFound              -- "Feature columns not found in data."
  | notEnough (got k : ℕ)     -- "Not enough data points (got) for k clusters."
  | execError                 -- "Segmentation Execution Error: ..."
deriving DecidableEq

/-- The engineered feature table fed to the clustering tail: feature
names, and per entity an optional index cell plus its feature vector. -/
structure FeatTable where
  names : List String
  rows : List (Option Cell × List ℚ)
deriving DecidableEq

/-- RFM pre-processing: coerce the date and amount columns, then
`dropna(subset=[id, date, amount])`; each surviving row becomes
(id cell, day number, amount). -/
def rfmValidRows (f : Frame) (ii di ai : ℕ) : List (Cell × ℕ × ℚ) :=
  f.rows.filterMap (fun r =>
    if cellAt r ii = .na then none
    else
      match toDate (cellAt r di), toNum (cellAt r ai) with
      | some d, some a => some (cellAt r ii, d, a)
      | _, _ => none)

/-- Snapshot timestamp: one day past the maximum observed date. -/
def rfmSnapshot (valid : List (Cell × ℕ × ℚ)) : ℕ :=
  (valid.map (fun v => v.2.1)).foldr max 0 + 1

/-- `groupby(id).agg(...)`: per entity, Recency (days from its last
activity to the snapshot), Frequency (row count) and Monetary (amount
sum). -/
def rfmAgg (valid : List (Cell × ℕ × ℚ)) : List (Cell × ℤ × ℕ × ℚ) :=
  let snap := rfmSnapshot valid
  ((valid.map (fun v => v.1)).dedup).map (fun idc =>
    let grp := valid.filter (fun v => v.1 = idc)
    (idc, (snap : ℤ) - ((grp.map (fun v => v.2.1)).foldr max 0 : ℤ),
      grp.length, qsum (grp.map (fun v => v.2.2))))

/-- The outlier filter
`features[(features.Monetary > 0) & (features.Recency >= 0)]`. -/
def rfmRetained (f : Frame) (ii di ai : ℕ) : List (Cell × ℤ × ℕ × ℚ) :=
  (rfmAgg (rfmValidRows f ii di ai)).filter
    (fun e => decide (0 < e.2.2.2) && decide (0 ≤ e.2.1))

/-- The RFM feature table. -/
def rfmTable (f : Frame) (ii di ai : ℕ) : FeatTable :=
  { names := ["Recency", "Frequency", "Monetary"]
    rows := (rfmRetained f ii di ai).map
      (fun e => (some e.1, [(e.2.1 : ℚ), (e.2.2.1 : ℚ), e.2.2.2])) }

/-- Keep rows all of whose feature cells are present (`dropna`). -/
def denseRows (l : List (Option Cell × List (Option ℚ))) :
    List (Option Cell × List ℚ) :=
  l.filterMap (fun r =>
    if r.2.all Option.isSome then some (r.1, r.2.map (fun o => o.getD 0))
    else none)

/-- Generic feature construction (PATH B of the source): validate the
requested feature columns, aggregate by mean per id when an id column is
given and duplicated, and drop rows with missing values.  Non-numeric
feature cells are treated as missing for the per-group mean. -/
def buildGeneric (f : Frame) (cfg : SegConfig) : Except SegErr FeatTable :=
  if cfg.featureCols = [] then .error .genMissing
  else
    let valid := cfg.featureCols.filter (fun c => c ∈ f.cols)
    if valid = [] then .error .colsNotFound
    else
      let idxs := valid.map (fun c => (colIdx f c).getD 0)
      let rawRows : List (Option Cell × List (Option ℚ)) :=
        match pyTruthy cfg.idCol with
        | some i =>
          match colIdx f i with
          | some ii =>
            let ids := f.rows.map (fun r => cellAt r ii)
            if ¬ ids.Nodup then
              -- df.groupby(id)[cols].mean(): NaN ids are dropped by groupby
              ((ids.filter (fun c => c ≠ .na)).dedup).map (fun k =>
                let grp := f.rows.filter (fun r => cellAt r ii = k)
                (some k, idxs.map (fun ci =>
                  let vals := grp.filterMap (fun r => toNum (cellAt r ci))
                  if vals.length = 0 then (none : Option ℚ)
                  else some (qsum vals / (vals.length : ℚ)))))
            else
              -- df.set_index(id)[cols]
              f.rows.map (fun r => (some (cellAt r ii),
                idxs.map (fun ci => toNum (cellAt r ci))))
          | none =>
            f.rows.map (fun r => ((none : Option Cell),
              idxs.map (fun ci => toNum (cellAt r ci))))
        | none =>
          f.rows.map (fun r => ((none : Option Cell),
            idxs.map (fun ci => toNum (cellAt r ci))))
      .ok { names := valid, rows := denseRows rawRows }

/-- Componentwise mean of the feature vectors of one cluster. -/
def meanVec (rows : List (List ℚ)) : List ℚ :=
  (List.range (rows.headD []).length).map
    (fun j => qsum (rows.map (fun r => r.getD j 0)) / (rows.length : ℚ))

/-- The clustering tail shared by both paths: the row-count guard, the
call into the (library) clustering at the fixed seed 42, label
attachment, and the per-cluster summary (groupby Cluster: means and
member count, then sorted by count descending). -/
def commonTail (impl : List (List ℚ) → ℕ → ℕ → List ℕ) (n : ℕ)
    (ft : FeatTable) :
    Except SegErr (List (Option Cell × List ℚ × ℕ) × List (ℕ × List ℚ × ℕ)) :=
  if ft.rows.length < n then .error (.notEnough ft.rows.length n)
  else
    let labels := impl (ft.rows.map Prod.snd) n 42
    let labeled := (ft.rows.zip labels).map (fun p => (p.1.1, p.1.2, p.2))
    let keys := sortLeBy (fun a b => a ≤ b) (labeled.map (fun r => r.2.2)).dedup
    let summary := keys.map (fun k =>
      let grp := labeled.filter (fun r => r.2.2 = k)
      (k, meanVec (grp.map (fun r => r.2.1)), grp.length))
    .ok (labeled, sortLeBy (fun a b => b.2.2 ≤ a.2.2) summary)

/-- `StallionSegmentor.execute_segmentation`.  A missing id/date/amount
column on the RFM path raises a `KeyError` in the source, caught by the
enclosing `except` (`execError` here). -/
def executeSegmentation (impl : List (List ℚ) → ℕ → ℕ → List ℕ)
    (f : Frame) (cfg : SegConfig) (n : ℕ) :
    Except SegErr (List (Option Cell × List ℚ × ℕ) × List (ℕ × List ℚ × ℕ)) :=
  if f.rows = [] then .error .noData
  else if cfg.strategyType = some "RFM" then
    match pyTruthy cfg.idCol, pyTruthy cfg.dateCol, pyTruthy cfg.amountCol with
    | some i, some d, some a =>
      match colIdx f i, colIdx f d, colIdx f a with
      | some ii, some di, some ai => commonTail impl n (rfmTable f ii di ai)
      | _, _, _ => .error .execError
    | _, _, _ => .error .rfmMissing
  else
    (buildGeneric f cfg).bind (commonTail impl n)

/-! ## Response interpreter: `StallionCopilot._clean_json`
(modules/copilot.py lines 148-154)

`text.replace("```json", "").replace("```", "").strip()`, then the span
from the first left brace to the last right brace is taken (when a left
brace exists) and handed to `json.loads`.  The JSON parser itself is
external; the claims about this function are settled at the level of the
cleaned text handed to it. -/

/-- The brace-span slice of `_clean_json`: `start = clean.find(lbrace)`,
`end = clean.rfind(rbrace) + 1`, and `clean[start:end]` whenever `start`
is not -1 (`end` can never be -1, so the source's second test is
vacuous; when the right brace is absent `rfind` gives -1 and the slice
is `clean[start:0] = ""`). -/
def braceSpan (c : List Char) : List Char :=
  match pyFind lbrace c with
  | none => c
  | some st =>
    let en := match pyRfind rbrace c with
      | none => 0
      | some e => e + 1
    (c.take en).drop st

/-- The clean-and-slice stage of `_clean_json` (everything before
`json.loads`). -/
def cleanJsonText (s : List Char) : List Char :=
  braceSpan (pyStrip (removePat fencePat3 (removePat fenceJsonPat s)))

/-- The canonical fenced wrapping of a model answer: leading prose, an
opening fence with language tag, the payload, a closing fence, trailing
prose. -/
def wrapFenced (p₁ t p₂ : List Char) : List Char :=
  p₁ ++ (fenceJsonPat ++ ['\n']) ++ t ++ ('\n' :: fencePat3 ++ ['\n']) ++ p₂

/-! ## The claim's reading of the granularity heuristic

The specification says the cadence is chosen from the number of
observations obtained after the group-and-sum collapse; this definition
follows the spec's words (not the source) and exists only to be compared
against the source's behaviour. -/

/-- Modelled from the spec: the cadence the claim says is chosen, as a
function of the number of observations "so obtained" (after collapsing
duplicates). -/
def claimFreqChoice (nObs : ℕ) : Freq :=
  if 60 < nObs then .daily else .monthly

/-! ## Concrete instances used by counterexamples and witnesses -/

/-- A stub outlier model (library stand-in); the inputs it is used on
never reach the model call or do not depend on its output. -/
def isoStub : List ℚ → List Bool := fun l => l.map (fun _ => false)

/-- A stub clustering implementation (library stand-in): every row goes
to cluster 0; it returns one label per row, as KMeans does. -/
def clusterStub : List (List ℚ) → ℕ → ℕ → List ℕ :=
  fun m _ _ => m.map (fun _ => 0)

/-- Four exactly-correlated-enough numeric columns: all six column pairs
qualify (|r| > 0.75), and the pair iterated last, (c3, c2), has |r| = 1,
strictly stronger than the reported pair (c1, c0). -/
def frameCorr : Frame :=
  { cols := ["c0", "c1", "c2", "c3"]
    rows := [[.num 1, .num 1, .num 2, .num 1],
             [.num 2, .num 2, .num 4, .num 2],
             [.num 3, .num 4, .num 6, .num 3],
             [.num 5, .num 5, .num 8, .num 4]] }

/-- Twelve valid rows, all in the same month: one monthly bucket. -/
def frameOneMonth : Frame :=
  { cols := ["d", "v"]
    rows := (List.range 12).map (fun i => [Cell.date i, Cell.num 1]) }

/-- Five valid rows (fewer than 12). -/
def frameFewRows : Frame :=
  { cols := ["d", "v"]
    rows := (List.range 5).map (fun i => [Cell.date (40 * i), Cell.num 1]) }

/-- Seventy rows over only seven distinct dates. -/
def frameDup70 : Frame :=
  { cols := ["d", "v"]
    rows := (List.range 70).map (fun i => [Cell.date (i % 7), Cell.num 1]) }

/-- Three rows over two distinct dates. -/
def frameSmallDates : Frame :=
  { cols := ["d", "v"]
    rows := [[.date 0, .num 2], [.date 31, .num 3], [.date 31, .num 4]] }

/-- A frame with the value column present but no rows. -/
def frameEmptyV : Frame := { cols := ["v"], rows := [] }

/-- Exactly nine numeric rows. -/
def frameNine : Frame :=
  { cols := ["v"], rows := (List.range 9).map (fun i => [Cell.num i]) }

/-- A small transaction table: entity 1 has two purchases, entity 2 one,
and entity 3 one with a negative amount (to be dropped). -/
def frameRfm : Frame :=
  { cols := ["id", "dt", "amt"]
    rows := [[.num 1, .date 0, .num 10],
             [.num 1, .date 5, .num 20],
             [.num 2, .date 3, .num 7],
             [.num 3, .date 6, .num (-2)]] }

/-- The RFM strategy naming the columns of `frameRfm`. -/
def cfgRfm : SegConfig :=
  { strategyType := some "RFM", idCol := some "id", dateCol := some "dt"
    amountCol := some "amt", featureCols := [] }

/-- A well-formed plan line. -/
def planLine1 : List Char := "SELECT revenue FROM sales | FORECAST".toList

/-- A line with no separator. -/
def planLine2 : List Char := "This line has no separator".toList

/-- A two-line raw plan: one well-formed line, one separator-less line. -/
def rawPlanW : List Char := planLine1 ++ '\n' :: planLine2

/-- Leading prose for the interpreter round trip. -/
def proseW1 : List Char := "Sure! Here is the JSON you asked for: ".toList

/-- Trailing prose for the interpreter round trip. -/
def proseW2 : List Char := " Let me know if you need anything else.".toList

/-- A concrete JSON object text. -/
def jsonW : List Char :=
  lbrace :: "\"action\": \"update\", \"value\": 42".toList ++ [rbrace]

/-- A concrete persisted store. -/
def storeW : List (String × ℕ) := [("alpha", 1), ("beta", 2)]

/-! ## Exact comparison of absolute correlation strengths

With `r^2 = covN^2 / (varN_x * varN_y)` and positive denominators,
`abs r(p) < abs r(q)` iff
`strengthNum p * strengthDen q < strengthNum q * strengthDen p`. -/

/-- Numerator `covN^2` of the squared correlation of column pair
`(i, j)`. -/
def strengthNum (f : Frame) (p : ℕ × ℕ) : ℚ :=
  let c := covN (pairObs (colVals f p.1) (colVals f p.2))
  c * c

/-- Denominator `varN_x * varN_y` of the squared correlation of column
pair `(i, j)`. -/
def strengthDen (f : Frame) (p : ℕ × ℕ) : ℚ :=
  varN ((pairObs (colVals f p.1) (colVals f p.2)).map Prod.fst) *
    varN ((pairObs (colVals f p.1) (colVals f p.2)).map Prod.snd)

/-! ## The claim's per-entity RFM formulas, stated directly -/

/-- The coerced, dropna-filtered rows of one entity. -/
def rfmGrp (f : Frame) (ii di ai : ℕ) (idc : Cell) : List (Cell × ℕ × ℚ) :=
  (rfmValidRows f ii di ai).filter (fun v => v.1 = idc)

/-- Recency of one entity: days from its last activity to the
snapshot. -/
def rfmRec (f : Frame) (ii di ai : ℕ) (idc : Cell) : ℤ :=
  (rfmSnapshot (rfmValidRows f ii di ai) : ℤ) -
    (((rfmGrp f ii di ai idc).map (fun v => v.2.1)).foldr max 0 : ℤ)

/-- Frequency of one entity: its row count. -/
def rfmFreq (f : Frame) (ii di ai : ℕ) (idc : Cell) : ℕ :=
  (rfmGrp f ii di ai idc).length

/-- Monetary of one entity: the sum of its amounts. -/
def rfmMon (f : Frame) (ii di ai : ℕ) (idc : Cell) : ℚ :=
  qsum ((rfmGrp f ii di ai idc).map (fun v => v.2.2))

/-- The five insight lines `check_correlations` reports on
`frameCorr`. -/
def reported5 : List CorrInsight :=
  [⟨"c1", "c0", true⟩, ⟨"c2", "c0", true⟩, ⟨"c2", "c1", true⟩,
   ⟨"c3", "c0", true⟩, ⟨"c3", "c1", true⟩]

/-! # Supporting lemmas -/

theorem lookupKey_eq_none_of_not_mem {V : Type} {k : String}
    {l : List (String × V)} (h : k ∉ l.map Prod.fst) : lookupKey k l = none := by
  induction l with
  | nil => rfl
  | cons a t ih =>
    simp only [List.map_cons, List.mem_cons, not_or] at h
    cases a with
    | mk x v =>
      have hx : x ≠ k := fun e => h.1 e.symm
      simp [lookupKey, hx, ih h.2]

theorem lookupKey_eraseKey_self {V : Type} (k : String) (l : List (String × V))
    (h : (l.map Prod.fst).Nodup) : lookupKey k (eraseKey k l) = none := by
  induction l with
  | nil => rfl
  | cons a t ih =>
    cases a with
    | mk x v =>
      simp only [List.map_cons, List.nodup_cons] at h
      by_cases hx : x = k
      · subst hx
        simp only [eraseKey, if_pos rfl]
        exact lookupKey_eq_none_of_not_mem h.1
      · simp [eraseKey, hx, lookupKey, ih h.2]

theorem lookupKey_eraseKey_of_ne {V : Type} {k k' : String} (h : k' ≠ k)
    (l : List (String × V)) : lookupKey k' (eraseKey k l) = lookupKey k' l := by
  induction l with
  | nil => rfl
  | cons a t ih =>
    cases a with
    | mk x v =>
      by_cases hx : x = k
      · subst hx
        have hk : x ≠ k' := fun e => h (e.symm)
        simp [eraseKey, lookupKey, hk]
      · by_cases hk : x = k'
        · simp [eraseKey, hx, lookupKey, hk, h]
        · simp [eraseKey, hx, lookupKey, hk, ih]

/-! # Claims -/

/-- Claim C10 (confirmed): for every persisted workspace store state and
every id, `delete_work` returns `True` and removes exactly the record
stored under that id when the id is present, and returns `False` while
leaving the persisted store contents unchanged when the id is absent
(returns `True` iff the id existed).  The store is keyed uniquely (a
JSON object), recorded by the `Nodup` hypothesis. -/
theorem delete_work_spec {V : Type} (store : List (String × V)) (workId : String)
    (hnd : (store.map Prod.fst).Nodup) :
    ((deleteWork store workId).1 = true ↔ (lookupKey workId store).isSome) ∧
    (lookupKey workId store = none → (deleteWork store workId).2 = store) ∧
    ((lookupKey workId store).isSome →
      lookupKey workId (deleteWork store workId).2 = none ∧
      ∀ k, k ≠ workId →
        lookupKey k (deleteWork store workId).2 = lookupKey k store) := by
  refine ⟨?_, ?_, ?_⟩
  · unfold deleteWork
    by_cases h : (lookupKey workId store).isSome
    · simp [h]
    · simp [h]
  · intro h
    unfold deleteWork
    simp [h]
  · intro h
    unfold deleteWork
    simp only [if_pos h]
    exact ⟨lookupKey_eraseKey_self workId store hnd,
      fun k hk => lookupKey_eraseKey_of_ne hk store⟩

/-- Witness for C10: on the concrete store, deleting a present id
returns `True` and removes exactly that record; deleting an absent id
returns `False` and leaves the store unchanged. -/
theorem delete_work_spec_witness :
    (deleteWork storeW "alpha").1 = true ∧
    lookupKey "alpha" (deleteWork storeW "alpha").2 = none ∧
    lookupKey "beta" (deleteWork storeW "alpha").2 = some 2 ∧
    (deleteWork storeW "gamma").1 = false ∧
    (deleteWork storeW "gamma").2 = storeW := by
  have h := delete_work_spec storeW "alpha" (by decide)
  have h' := delete_work_spec storeW "gamma" (by decide)
  refine ⟨h.1.mpr (by decide), (h.2.2 (by decide)).1, ?_, by decide, h'.2.1 (by decide)⟩
  have := (h.2.2 (by decide)).2 "beta" (by decide)
  rw [this]
  decide

theorem getD_zipWith_mul (as : List ℚ) :
    ∀ (bs : List ℚ) (i : ℕ), i < as.length → i < bs.length →
      (as.zipWith (· * ·) bs).getD i 0 = as.getD i 0 * bs.getD i 0 := by
  induction as with
  | nil => intro bs i h _; simp at h
  | cons a as ih =>
    intro bs i ha hb
    cases bs with
    | nil => simp at hb
    | cons b bs =>
      cases i with
      | zero => simp [List.zipWith]
      | succ j =>
        simp only [List.zipWith, List.getD_cons_succ]
        exact ih bs j (by simpa using ha) (by simpa using hb)

theorem linspace_getD (a b : ℚ) (n i : ℕ) (hi : i < n) :
    (linspace a b n).getD i 0 = a + (b - a) * (i : ℚ) / ((n : ℚ) - 1) := by
  unfold linspace
  rw [List.getD_eq_getElem?_getD, List.getElem?_map, List.getElem?_range hi]
  rfl

theorem linspace_length (a b : ℚ) (n : ℕ) : (linspace a b n).length = n := by
  simp [linspace]

/-- Claim C5 counterexample: at `periods = 1` with `growth_factor = 0.10`
the single (hence also last) forecast step keeps multiplier `1.0`, not
`1 + growth_factor` as the claim asserts for the last step: the adjusted
series equals the base series, while the claim demands the last value be
multiplied by `1.1`. -/
theorem scenario_ramp_counterexample :
    applyScenario 1 (1/10) [100] = [100] ∧
    (100 : ℚ) * (1 + 1/10) ≠ 100 := by
  constructor
  · with_unfolding_all decide
  · norm_num

/-- Claim C5 (corrected; the amendment restricts to `periods ≥ 2`, where
a first and a last step are distinct): for every base forecast series of
length `periods ≥ 2` and non-zero `growth_factor`, the scenario-adjusted
forecast is the base series multiplied pointwise by the linear ramp
`1 + g * i / (periods - 1)`, whose value is `1.0` at the first step and
`1 + g` at the last step — not a flat multiplier. -/
theorem scenario_ramp (base : List ℚ) (periods : ℕ) (g : ℚ)
    (hg : g ≠ 0) (hlen : base.length = periods) (h2 : 2 ≤ periods) :
    (applyScenario periods g base).length = periods ∧
    (∀ i, i < periods →
      (applyScenario periods g base).getD i 0
        = base.getD i 0 * (1 + g * (i : ℚ) / ((periods : ℚ) - 1))) ∧
    (applyScenario periods g base).getD 0 0 = base.getD 0 0 * 1 ∧
    (applyScenario periods g base).getD (periods - 1) 0
      = base.getD (periods - 1) 0 * (1 + g) := by
  have hpt : ∀ i, i < periods →
      (applyScenario periods g base).getD i 0
        = base.getD i 0 * (1 + g * (i : ℚ) / ((periods : ℚ) - 1)) := by
    intro i hi
    unfold applyScenario
    rw [if_neg hg, getD_zipWith_mul base (linspace 1 (1 + g) periods) i
        (by omega) (by rw [linspace_length]; exact hi),
      linspace_getD 1 (1 + g) periods i hi]
    ring
  have hne : ((periods : ℚ) - 1) ≠ 0 := by
    have : (2 : ℚ) ≤ (periods : ℚ) := by exact_mod_cast h2
    intro h
    rw [sub_eq_zero] at h
    rw [h] at this
    norm_num at this
  refine ⟨?_, hpt, ?_, ?_⟩
  · unfold applyScenario
    rw [if_neg hg]
    simp [linspace_length, hlen]
  · rw [hpt 0 (by omega)]
    norm_num
  · rw [hpt (periods - 1) (by omega)]
    have hcast : ((periods - 1 : ℕ) : ℚ) = (periods : ℚ) - 1 :=
      Nat.cast_sub (by omega)
    rw [hcast, mul_div_assoc, div_self hne, mul_one]

/-- Witness for C5: `periods = 4, growth_factor = 0.10` gives first
multiplier `1.0` and last multiplier `1.10`. -/
theorem scenario_ramp_witness :
    (applyScenario 4 (1/10) [100, 100, 100, 100]).getD 0 0 = 100 * 1 ∧
    (applyScenario 4 (1/10) [100, 100, 100, 100]).getD 3 0
      = 100 * (1 + 1/10) := by
  have h := scenario_ramp [100, 100, 100, 100] 4 (1/10)
    (by norm_num) (by decide) (by norm_num)
  constructor
  · have := h.2.2.1
    simpa using this
  · have := h.2.2.2
    simpa using this

/-- Claim C9 counterexample: an empty table whose value column exists has
fewer than 10 rows remaining after dropping missing values (namely 0),
yet `detect_anomalies` returns the distinct "No data for anomaly
detection." string rather than the "not enough data points" message the
claim requires for every such table. -/
theorem detect_anomalies_counterexample :
    colIdx frameEmptyV "v" = some 0 ∧
    (frameEmptyV.rows.filter (fun r => cellAt r 0 ≠ .na)).length < 10 ∧
    detectAnomalies isoStub frameEmptyV "v" = .noData ∧
    AnomalyOut.noData ≠ .notEnough := by
  refine ⟨by decide, by decide, by decide, by decide⟩

/-- Claim C9 (corrected; the amendment adds that the table is nonempty,
since an empty table takes the earlier "No data" branch): for every
input table, `detect_anomalies` never raises (it is total, every library
failure being caught and returned as `failed`); a missing value column
yields the descriptive no-data string, and a nonempty table whose value
column keeps fewer than 10 rows after dropping missing values — in
particular exactly 9 — yields the "not enough data points" message. -/
theorem detect_anomalies_guards (iso : List ℚ → List Bool) (f : Frame)
    (valueCol : String) :
    (colIdx f valueCol = none → detectAnomalies iso f valueCol = .noData) ∧
    (∀ vi, colIdx f valueCol = some vi → f.rows ≠ [] →
      (f.rows.filter (fun r => cellAt r vi ≠ .na)).length < 10 →
      detectAnomalies iso f valueCol = .notEnough) := by
  constructor
  · intro h
    simp [detectAnomalies, h]
  · intro vi hvi hne hlt
    have hlt' : (f.rows.filter (fun r => !decide (cellAt r vi = Cell.na))).length < 10 := by
      simpa using hlt
    simp [detectAnomalies, hvi, hne, hlt']

/-- Witness for C9: a 9-row table hits the "not enough data points"
branch. -/
theorem detect_anomalies_guards_witness :
    frameNine.rows ≠ [] ∧
    (frameNine.rows.filter (fun r => cellAt r 0 ≠ .na)).length = 9 ∧
    detectAnomalies isoStub frameNine "v" = .notEnough := by
  refine ⟨by decide, by with_unfolding_all decide, ?_⟩
  exact (detect_anomalies_guards isoStub frameNine "v").2 0 (by decide)
    (by decide) (by with_unfolding_all decide)

/-- Claim C2 counterexample: twelve valid rows all in one month give a
single monthly point (fewer than 12), yet the guard `len(data) < 12`
counts rows, not monthly buckets, so the fit is attempted; it fails
(one bucket cannot support a 12-period seasonal model) and the caught
exception produces the "Forecasting Failed" string — not the explicit
insufficient-data message the claim requires for every table with fewer
than 12 monthly points. -/
theorem stattools_forecast_counterexample :
    monthlyPoints frameOneMonth "d" = 1 ∧
    generateForecastA frameOneMonth "d" "v" = .failed ∧
    ForecastAOut.failed ≠ .tooShort := by
  refine ⟨by with_unfolding_all decide, by with_unfolding_all decide, by decide⟩

/-- Claim C2 (corrected; the guard counts coerced rows, not monthly
points): for every nonempty table whose date column coerces to fewer
than 12 valid rows, the StatTools `generate_forecast` returns the
explicit insufficient-data message, and a missing date column yields the
descriptive no-data string; the function is total (never raises), every
library failure being caught and returned as `failed`. -/
theorem stattools_forecast_guards (f : Frame) (dateCol valueCol : String) :
    (colIdx f dateCol = none → generateForecastA f dateCol valueCol = .noData) ∧
    (∀ di, colIdx f dateCol = some di → f.rows ≠ [] →
      (validDateRows f di).length < 12 →
      generateForecastA f dateCol valueCol = .tooShort) := by
  constructor
  · intro h
    simp [generateForecastA, h]
  · intro di hdi hne hlt
    simp [generateForecastA, hdi, hne, hlt]

/-- Witness for C2: five valid rows return the insufficient-data
message. -/
theorem stattools_forecast_guards_witness :
    frameFewRows.rows ≠ [] ∧
    (validDateRows frameFewRows 0).length = 5 ∧
    generateForecastA frameFewRows "d" "v" = .tooShort := by
  refine ⟨by decide, by with_unfolding_all decide, ?_⟩
  exact (stattools_forecast_guards frameFewRows "d" "v").2 0 (by decide)
    (by decide) (by with_unfolding_all decide)

theorem mem_lowerPairs {n : ℕ} {p : ℕ × ℕ} :
    p ∈ lowerPairs n ↔ p.2 < p.1 ∧ p.1 < n := by
  cases p with
  | mk i j =>
    simp only [lowerPairs, List.mem_flatMap, List.mem_map, List.mem_range]
    constructor
    · rintro ⟨i', hi', j', hj', he⟩
      cases he
      exact ⟨hj', hi'⟩
    · rintro ⟨hj, hi⟩
      exact ⟨i, hi, j, hj, rfl⟩

/-- Claim C1 counterexample: on `frameCorr` all six column pairs
qualify, and the source reports the first five in iteration order; the
pair (c3, c2), iterated last, qualifies and is strictly stronger in
absolute correlation than the reported pair (c1, c0), yet is absent
from the report — so the reported pairs are not the top 5 ranked by
absolute correlation strength. -/
theorem correlations_counterexample :
    checkCorrelations frameCorr = .insights reported5 ∧
    strongPair (colVals frameCorr 3) (colVals frameCorr 2) = true ∧
    CorrInsight.mk "c3" "c2" true ∉ reported5 ∧
    CorrInsight.mk "c2" "c3" true ∉ reported5 ∧
    0 < strengthDen frameCorr (1, 0) ∧
    0 < strengthDen frameCorr (3, 2) ∧
    strengthNum frameCorr (1, 0) * strengthDen frameCorr (3, 2)
      < strengthNum frameCorr (3, 2) * strengthDen frameCorr (1, 0) := by
  refine ⟨by with_unfolding_all decide, by with_unfolding_all decide,
    by decide, by decide, by with_unfolding_all decide,
    by with_unfolding_all decide, by with_unfolding_all decide⟩

/-- Claim C1 (corrected; the report is the first at most 5 qualifying
pairs in the source's lower-triangle iteration order, not the top 5
ranked by absolute strength): with at least 2 numeric columns,
`check_correlations` returns the fixed no-strong-correlations message
iff no pair qualifies; otherwise it reports the first at most 5
qualifying pairs in iteration order; every qualifying pair satisfies
`abs r > 0.75`, and its label is Positive iff `r > 0` (the sign of the
deviation-product sum). -/
theorem correlations_first5 (f : Frame) (h2 : 2 ≤ (numericCols f).length) :
    (checkCorrelations f = .noStrong ↔ qualifyingPairs f = []) ∧
    (qualifyingPairs f ≠ [] →
      checkCorrelations f
        = .insights (((qualifyingPairs f).take 5).map (mkInsight f))) ∧
    (∀ p ∈ qualifyingPairs f, p.2 < p.1 ∧ p.1 < (numericCols f).length ∧
      strongPair (colVals f p.1) (colVals f p.2) = true) ∧
    (∀ p ∈ qualifyingPairs f,
      ((mkInsight f p).positive = true ↔
        0 < covN (pairObs (colVals f p.1) (colVals f p.2)))) := by
  have hlt : ¬ (numericCols f).length < 2 := by omega
  refine ⟨?_, ?_, ?_, ?_⟩
  · unfold checkCorrelations
    rw [if_neg hlt]
    by_cases hq : qualifyingPairs f = []
    · simp [hq]
    · simp [hq]
  · intro hq
    unfold checkCorrelations
    rw [if_neg hlt]
    have hm : (qualifyingPairs f).map (mkInsight f) ≠ [] := by
      simpa using hq
    rw [if_neg hm, ← List.map_take]
  · intro p hp
    unfold qualifyingPairs at hp
    rw [List.mem_filter] at hp
    have hlp := mem_lowerPairs.mp hp.1
    exact ⟨hlp.1, hlp.2, by simpa using hp.2⟩
  · intro p hp
    simp [mkInsight, posPair]

/-- Witness for C1: on `frameCorr` the report equals the first five
qualifying pairs in iteration order. -/
theorem correlations_first5_witness :
    2 ≤ (numericCols frameCorr).length ∧
    checkCorrelations frameCorr
      = .insights (((qualifyingPairs frameCorr).take 5).map
          (mkInsight frameCorr)) := by
  have h := correlations_first5 frameCorr (by with_unfolding_all decide)
  exact ⟨by with_unfolding_all decide, h.2.1 (by with_unfolding_all decide)⟩

theorem insertLeBy_perm {α : Type} (le : α → α → Bool) (x : α) :
    ∀ l : List α, (insertLeBy le x l).Perm (x :: l) := by
  intro l
  induction l with
  | nil => simp [insertLeBy]
  | cons y t ih =>
    by_cases h : le x y
    · simp [insertLeBy, h]
    · simp only [insertLeBy, if_neg h]
      exact ((ih.cons y).trans (List.Perm.swap x y t))

theorem sortLeBy_perm {α : Type} (le : α → α → Bool) :
    ∀ l : List α, (sortLeBy le l).Perm l := by
  intro l
  induction l with
  | nil => simp [sortLeBy]
  | cons x t ih =>
    exact (insertLeBy_perm le x (sortLeBy le t)).trans (ih.cons x)

theorem qsum_eq_sum (l : List ℚ) : qsum l = l.sum := by
  induction l with
  | nil => rfl
  | cons a t ih =>
    show a + qsum t = (a :: t).sum
    rw [List.sum_cons, ih]

/-- Claim C3 counterexample: seventy rows spanning only seven distinct
dates.  The source picks the cadence from the 70 pre-collapse rows
(daily, weekly cycle), while the claim's policy — choosing from the 7
observations obtained after the group-and-sum collapse — picks
monthly. -/
theorem forecaster_granularity_counterexample :
    forecasterPrep frameDup70 "d" "v"
      = some { nRows := 70, freq := .daily, cycle := 7,
               collapsed := [(0, 10), (1, 10), (2, 10), (3, 10), (4, 10),
                             (5, 10), (6, 10)] } ∧
    claimFreqChoice 7 = .monthly ∧
    Freq.daily ≠ .monthly := by
  refine ⟨by with_unfolding_all decide, by decide, by decide⟩

/-- Claim C3 (corrected; the granularity is chosen from the row count
after coercion, dropping and sorting but before the group-and-sum
collapse): the standalone forecaster coerces `x_col` to dates, drops
invalid rows, sorts, and group-and-sums by date; it selects daily
cadence with weekly (7) seasonality exactly when the pre-collapse valid
row count exceeds 60, and monthly cadence with yearly (12) seasonality
otherwise; the collapsed series has one entry per distinct valid date,
whose value is the sum of the y-values on that date. -/
theorem forecaster_prep_spec (f : Frame) (xCol yCol : String) (xi yi : ℕ)
    (hx : colIdx f xCol = some xi) (hy : colIdx f yCol = some yi)
    (hne : validDateRows f xi ≠ []) :
    ∃ p, forecasterPrep f xCol yCol = some p ∧
      p.nRows = (validDateRows f xi).length ∧
      p.freq = (if 60 < (validDateRows f xi).length then Freq.daily
                else Freq.monthly) ∧
      p.cycle = (if 60 < (validDateRows f xi).length then 7 else 12) ∧
      (∀ d : ℕ, (∃ q, (d, q) ∈ p.collapsed)
        ↔ d ∈ (validDateRows f xi).map Prod.fst) ∧
      (∀ d q, (d, q) ∈ p.collapsed →
        q = qsum (((validDateRows f xi).filter (fun r => r.1 = d)).map
              (fun r => (toNum (cellAt r.2 yi)).getD 0))) := by
  unfold forecasterPrep
  simp only [hx, hy]
  have hperm := sortLeBy_perm (fun a b : ℕ × List Cell => a.1 ≤ b.1)
    (validDateRows f xi)
  have hlen := hperm.length_eq
  have hsne : sortLeBy (fun a b : ℕ × List Cell => a.1 ≤ b.1)
      (validDateRows f xi) ≠ [] := by
    intro h
    apply hne
    have := hlen
    rw [h] at this
    exact List.length_eq_zero.mp this.symm
  rw [if_neg hsne]
  refine ⟨_, rfl, hlen, by rw [hlen], by rw [hlen], ?_, ?_⟩
  · intro d
    constructor
    · rintro ⟨q, hq⟩
      simp only [groupSumByDate, List.mem_map] at hq
      obtain ⟨d', hd', he⟩ := hq
      cases he
      rw [List.mem_dedup, List.map_map] at hd'
      have : d ∈ (sortLeBy (fun a b : ℕ × List Cell => a.1 ≤ b.1)
          (validDateRows f xi)).map Prod.fst := by
        simpa using hd'
      exact ((hperm.map Prod.fst).mem_iff).mp this
    · intro hd
      have hd' : d ∈ (sortLeBy (fun a b : ℕ × List Cell => a.1 ≤ b.1)
          (validDateRows f xi)).map Prod.fst :=
        ((hperm.map Prod.fst).mem_iff).mpr hd
      have hdk : d ∈ (((sortLeBy (fun a b : ℕ × List Cell => a.1 ≤ b.1)
          (validDateRows f xi)).map
            (fun p => (p.1, (toNum (cellAt p.2 yi)).getD 0))).map
              Prod.fst).dedup := by
        rw [List.mem_dedup, List.map_map]
        simpa using hd'
      exact ⟨_, List.mem_map_of_mem _ hdk⟩
  · intro d q hq
    simp only [groupSumByDate, List.mem_map] at hq
    obtain ⟨d', hmem, he⟩ := hq
    rw [Prod.mk.injEq] at he
    obtain ⟨rfl, rfl⟩ := he
    rw [qsum_eq_sum, qsum_eq_sum]
    refine List.Perm.sum_eq ?_
    rw [List.filter_map, List.map_map]
    exact (hperm.filter _).map _

/-- Witness for C3: three valid rows over two dates select the monthly
cadence with yearly (12) seasonality. -/
theorem forecaster_prep_spec_witness :
    ∃ p, forecasterPrep frameSmallDates "d" "v" = some p ∧
      p.freq = .monthly ∧ p.cycle = 12 := by
  obtain ⟨p, h1, _, h3, h4, _, _⟩ := forecaster_prep_spec frameSmallDates
    "d" "v" 0 1 (by decide) (by decide) (by with_unfolding_all decide)
  refine ⟨p, h1, ?_, ?_⟩
  · rw [h3]
    have h : (validDateRows frameSmallDates 0).length = 3 := by
      with_unfolding_all decide
    rw [h]
    decide
  · rw [h4]
    have h : (validDateRows frameSmallDates 0).length = 3 := by
      with_unfolding_all decide
    rw [h]
    decide

theorem planLoop_eq (ls : List (List Char)) :
    planLoop ls = (ls.filter (fun l => '|' ∈ l)).map mkStep := by
  induction ls with
  | nil => rfl
  | cons l t ih =>
    by_cases h : '|' ∈ l
    · simp [planLoop, h, ih, List.filter_cons]
    · simp [planLoop, h, ih, List.filter_cons]

/-- Claim C8 (confirmed): the Planner turns into plan steps exactly the
lines containing the `|` separator (in order), skipping separator-less
lines without aborting, so two lines of which only the first is
well-formed yield exactly one step; the tool tag is matched on its
upper-cased form (so matching is case-insensitive) and by substring, not
exact equality. -/
theorem plan_parsing_spec :
    (∀ raw, parsePlan raw
      = ((splitOnChar '\n' (pyStrip raw)).filter (fun l => '|' ∈ l)).map mkStep) ∧
    (∀ l₁ l₂ : List Char, '|' ∈ l₁ → '|' ∉ l₂ →
      planLoop [l₁, l₂] = [mkStep l₁]) ∧
    (∀ t₁ t₂ : List Char, ∀ n, pyUpper t₁ = pyUpper t₂ →
      routeTool (pyUpper t₁) n = routeTool (pyUpper t₂) n) ∧
    (∀ u : List Char, ∀ n, forWord <:+: u → ¬ segWord <:+: u →
      ¬ anoWord <:+: u → 2 ≤ n → routeTool u n = .forecast) := by
  refine ⟨?_, ?_, ?_, ?_⟩
  · intro raw
    unfold parsePlan
    exact planLoop_eq _
  · intro l₁ l₂ h1 h2
    simp [planLoop, h1, h2]
  · intro t₁ t₂ n h
    rw [h]
  · intro u n hfor hseg hano hn
    unfold routeTool
    rw [if_neg hseg, if_neg (fun h => hano h.1), if_pos ⟨hfor, hn⟩]

/-- Witness for C8: the concrete two-line plan yields exactly the one
step of its well-formed line, and a tool tag that merely contains
FORECAST as a substring is routed to the forecast tool. -/
theorem plan_parsing_spec_witness :
    planLoop [planLine1, planLine2] = [mkStep planLine1] ∧
    parsePlan rawPlanW = [mkStep planLine1] ∧
    routeTool "RUN A FORECAST NOW".toList 2 = .forecast := by
  refine ⟨plan_parsing_spec.2.1 planLine1 planLine2 (by decide) (by decide),
    by decide, ?_⟩
  exact plan_parsing_spec.2.2.2 "RUN A FORECAST NOW".toList 2
    (by decide) (by decide) (by decide) (by decide)

theorem commonTail_congr (impl₁ impl₂ : List (List ℚ) → ℕ → ℕ → List ℕ)
    (h42 : ∀ m k, impl₁ m k 42 = impl₂ m k 42) (n : ℕ) (ft : FeatTable) :
    commonTail impl₁ n ft = commonTail impl₂ n ft := by
  unfold commonTail
  rw [h42]

/-- Claim C6 (confirmed): `execute_segmentation` is deterministic
because the only non-deterministic library stage, the k-means fit, is
called at the fixed seed 42 — any two clustering implementations that
agree at seed 42 (in particular, the same implementation run twice)
produce identical outputs, including identical per-entity integer
Cluster labels, on every table, strategy configuration and cluster
count. -/
theorem segmentation_deterministic
    (impl₁ impl₂ : List (List ℚ) → ℕ → ℕ → List ℕ)
    (h42 : ∀ m k, impl₁ m k 42 = impl₂ m k 42)
    (f : Frame) (cfg : SegConfig) (n : ℕ) :
    executeSegmentation impl₁ f cfg n = executeSegmentation impl₂ f cfg n := by
  have hct : commonTail impl₁ n = commonTail impl₂ n :=
    funext (commonTail_congr impl₁ impl₂ h42 n)
  unfold executeSegmentation
  rw [hct]

/-- Witness for C6: two runs on the concrete transaction table agree
(and produce the computed labeled table and summary). -/
theorem segmentation_deterministic_witness :
    executeSegmentation clusterStub frameRfm cfgRfm 2
      = executeSegmentation clusterStub frameRfm cfgRfm 2 ∧
    executeSegmentation clusterStub frameRfm cfgRfm 2
      = .ok ([(some (.num 1), [2, 2, 30], 0), (some (.num 2), [4, 1, 7], 0)],
             [(0, [3, 3/2, 37/2], 2)]) := by
  constructor
  · exact segmentation_deterministic clusterStub clusterStub
      (fun m k => rfl) frameRfm cfgRfm 2
  · with_unfolding_all rfl

theorem exists_mem_zip_left {α β : Type} {l₁ : List α} {l₂ : List β}
    (hlen : l₁.length = l₂.length) {x : α} (hx : x ∈ l₁) :
    ∃ y, (x, y) ∈ l₁.zip l₂ := by
  obtain ⟨k, hk, he⟩ := List.mem_iff_getElem.mp hx
  have hk2 : k < l₂.length := by omega
  have hkz : k < (l₁.zip l₂).length := by
    rw [List.length_zip]
    omega
  refine ⟨l₂[k], ?_⟩
  have hz : (l₁.zip l₂)[k] = (l₁[k], l₂[k]) := List.getElem_zip
  rw [he] at hz
  exact hz ▸ List.getElem_mem hkz

theorem length_filter_map_eq {α β : Type} (g : α → β) (l : List α)
    (pred : β → Bool) :
    (l.filter (fun x => pred (g x))).length = ((l.map g).filter pred).length := by
  rw [List.filter_map, List.length_map]
  rfl

theorem sum_filter_lengths (ls : List ℕ) :
    ((ls.dedup).map (fun k => (ls.filter (fun x => x = k)).length)).sum
      = ls.length := by
  have h1 : ∀ k, (ls.filter (fun x => x = k)).length = ls.count k := by
    intro k
    rw [List.count, List.countP_eq_length_filter]
    have he : (fun x : ℕ => decide (x = k)) = (fun x : ℕ => x == k) := by
      funext x
      by_cases h : x = k <;> simp [h]
    rw [he]
  calc ((ls.dedup).map (fun k => (ls.filter (fun x => x = k)).length)).sum
      = ((ls.dedup).map (fun k => ls.count k)).sum := by
        congr 1
        apply List.map_congr_left
        intro k _
        exact h1 k
    _ = ls.length := List.sum_map_count_dedup_eq_length ls

/-- Claim C4 (confirmed): on the RFM path with existing id, date and
amount columns, `execute_segmentation` coerces dates and amounts,
drops rows where id, date or amount is invalid, sets the snapshot one
day past the maximum observed date (built into `rfmRec`), and the
output rows carry per entity exactly Recency = days from that entity's
last activity to the snapshot, Frequency = its row count, Monetary =
its amount sum; entities with non-positive Monetary or negative Recency
are dropped (and every surviving entity appears); the per-cluster member
counts of the summary sum to the number of retained entities.  The
clustering is any implementation returning one label per row, as KMeans
does. -/
theorem rfm_segmentation_spec
    (impl : List (List ℚ) → ℕ → ℕ → List ℕ)
    (himpl : ∀ m k s, (impl m k s).length = m.length)
    (f : Frame) (cfg : SegConfig) (n : ℕ)
    (i d a : String) (ii di ai : ℕ)
    (hstrat : cfg.strategyType = some "RFM")
    (hti : pyTruthy cfg.idCol = some i)
    (htd : pyTruthy cfg.dateCol = some d)
    (hta : pyTruthy cfg.amountCol = some a)
    (hci : colIdx f i = some ii)
    (hcd : colIdx f d = some di)
    (hca : colIdx f a = some ai)
    (hne : f.rows ≠ [])
    (labeled : List (Option Cell × List ℚ × ℕ))
    (summary : List (ℕ × List ℚ × ℕ))
    (hok : executeSegmentation impl f cfg n = .ok (labeled, summary)) :
    (labeled.length = (rfmRetained f ii di ai).length ∧ n ≤ labeled.length) ∧
    (∀ e ∈ labeled, ∃ idc : Cell,
      e.1 = some idc ∧
      rfmGrp f ii di ai idc ≠ [] ∧
      e.2.1 = [(rfmRec f ii di ai idc : ℚ), (rfmFreq f ii di ai idc : ℚ),
               rfmMon f ii di ai idc] ∧
      0 < rfmMon f ii di ai idc ∧ 0 ≤ rfmRec f ii di ai idc) ∧
    (∀ idc ∈ (rfmValidRows f ii di ai).map (fun v => v.1),
      0 < rfmMon f ii di ai idc → 0 ≤ rfmRec f ii di ai idc →
      ∃ e ∈ labeled, e.1 = some idc) ∧
    ((summary.map (fun s => s.2.2)).sum = labeled.length) := by
  unfold executeSegmentation at hok
  rw [if_neg hne, if_pos hstrat] at hok
  simp only [hti, htd, hta, hci, hcd, hca] at hok
  unfold commonTail at hok
  by_cases hlt : (rfmTable f ii di ai).rows.length < n
  · rw [if_pos hlt] at hok
    exact absurd hok (by simp)
  · rw [if_neg hlt] at hok
    simp only [Except.ok.injEq, Prod.mk.injEq] at hok
    obtain ⟨hl, hs⟩ := hok
    subst hl
    subst hs
    have hrows : (rfmTable f ii di ai).rows
        = (rfmRetained f ii di ai).map
            (fun e => (some e.1, [(e.2.1 : ℚ), (e.2.2.1 : ℚ), e.2.2.2])) := rfl
    have hlablen : (impl ((rfmTable f ii di ai).rows.map Prod.snd) n 42).length
        = (rfmTable f ii di ai).rows.length := by
      rw [himpl, List.length_map]
    have hziplen : (((rfmTable f ii di ai).rows.zip
        (impl ((rfmTable f ii di ai).rows.map Prod.snd) n 42)).map
          (fun p => (p.1.1, p.1.2, p.2))).length
        = (rfmTable f ii di ai).rows.length := by
      rw [List.length_map, List.length_zip, hlablen, Nat.min_self]
    have hftlen : (rfmTable f ii di ai).rows.length
        = (rfmRetained f ii di ai).length := by
      rw [hrows, List.length_map]
    refine ⟨⟨by rw [hziplen, hftlen], by omega⟩, ?_, ?_, ?_⟩
    · -- every output row carries the claim's per-entity formulas
      intro e he
      rw [List.mem_map] at he
      obtain ⟨p, hp, rfl⟩ := he
      have hp1 := (List.of_mem_zip hp).1
      rw [hrows, List.mem_map] at hp1
      obtain ⟨ent, hent, hpe⟩ := hp1
      unfold rfmRetained at hent
      rw [List.mem_filter] at hent
      obtain ⟨hagg, hcond⟩ := hent
      rw [Bool.and_eq_true, decide_eq_true_iff, decide_eq_true_iff] at hcond
      unfold rfmAgg at hagg
      rw [List.mem_map] at hagg
      obtain ⟨idc, hidc, hentEq⟩ := hagg
      refine ⟨idc, ?_, ?_, ?_, ?_, ?_⟩
      · rw [← hpe, ← hentEq]
      · rw [List.mem_dedup, List.mem_map] at hidc
        obtain ⟨v, hv, hv1⟩ := hidc
        apply List.ne_nil_of_mem (a := v)
        unfold rfmGrp
        rw [List.mem_filter]
        exact ⟨hv, by simp [hv1]⟩
      · rw [← hpe, ← hentEq]
        rfl
      · rw [← hentEq] at hcond
        exact hcond.1
      · rw [← hentEq] at hcond
        exact hcond.2
    · -- every qualifying entity appears in the output
      intro idc hidc hm hr
      have hdk : idc ∈ ((rfmValidRows f ii di ai).map (fun v => v.1)).dedup :=
        List.mem_dedup.mpr hidc
      have hagg : ((fun idc => (idc,
          (rfmSnapshot (rfmValidRows f ii di ai) : ℤ) -
            ((((rfmValidRows f ii di ai).filter
              (fun v => v.1 = idc)).map (fun v => v.2.1)).foldr max 0 : ℤ),
          ((rfmValidRows f ii di ai).filter (fun v => v.1 = idc)).length,
          qsum (((rfmValidRows f ii di ai).filter
            (fun v => v.1 = idc)).map (fun v => v.2.2)))) idc)
          ∈ rfmAgg (rfmValidRows f ii di ai) :=
        List.mem_map_of_mem _ hdk
      have hret : ((fun idc => (idc,
          (rfmSnapshot (rfmValidRows f ii di ai) : ℤ) -
            ((((rfmValidRows f ii di ai).filter
              (fun v => v.1 = idc)).map (fun v => v.2.1)).foldr max 0 : ℤ),
          ((rfmValidRows f ii di ai).filter (fun v => v.1 = idc)).length,
          qsum (((rfmValidRows f ii di ai).filter
            (fun v => v.1 = idc)).map (fun v => v.2.2)))) idc)
          ∈ rfmRetained f ii di ai := by
        rw [rfmRetained, List.mem_filter]
        exact ⟨hagg, by
          rw [Bool.and_eq_true, decide_eq_true_iff, decide_eq_true_iff]
          exact ⟨hm, hr⟩⟩
      have hrow : ((some idc, [((rfmRec f ii di ai idc : ℤ) : ℚ),
          ((rfmFreq f ii di ai idc : ℕ) : ℚ), rfmMon f ii di ai idc])
            : Option Cell × List ℚ)
          ∈ (rfmTable f ii di ai).rows := by
        rw [hrows]
        exact List.mem_map_of_mem _ hret
      obtain ⟨lab, hlab⟩ := exists_mem_zip_left hlablen.symm hrow
      refine ⟨((some idc, [((rfmRec f ii di ai idc : ℤ) : ℚ),
          ((rfmFreq f ii di ai idc : ℕ) : ℚ), rfmMon f ii di ai idc]).1,
          (some idc, [((rfmRec f ii di ai idc : ℤ) : ℚ),
          ((rfmFreq f ii di ai idc : ℕ) : ℚ), rfmMon f ii di ai idc]).2, lab),
        List.mem_map_of_mem _ hlab, rfl⟩
    · -- the summary member counts sum to the number of retained entities
      have hperm := sortLeBy_perm
        (fun a b : ℕ × List ℚ × ℕ => b.2.2 ≤ a.2.2)
        ((sortLeBy (fun a b : ℕ => a ≤ b)
          ((((rfmTable f ii di ai).rows.zip
            (impl ((rfmTable f ii di ai).rows.map Prod.snd) n 42)).map
              (fun p => (p.1.1, p.1.2, p.2))).map (fun r => r.2.2)).dedup).map
          (fun k => (k,
            meanVec (((((rfmTable f ii di ai).rows.zip
              (impl ((rfmTable f ii di ai).rows.map Prod.snd) n 42)).map
                (fun p => (p.1.1, p.1.2, p.2))).filter
                  (fun r => r.2.2 = k)).map (fun r => r.2.1)),
            ((((rfmTable f ii di ai).rows.zip
              (impl ((rfmTable f ii di ai).rows.map Prod.snd) n 42)).map
                (fun p => (p.1.1, p.1.2, p.2))).filter
                  (fun r => r.2.2 = k)).length)))
      rw [(hperm.map (fun s => s.2.2)).sum_eq, List.map_map]
      have hperm2 := sortLeBy_perm (fun a b : ℕ => a ≤ b)
        ((((rfmTable f ii di ai).rows.zip
          (impl ((rfmTable f ii di ai).rows.map Prod.snd) n 42)).map
            (fun p => (p.1.1, p.1.2, p.2))).map (fun r => r.2.2)).dedup
      rw [(hperm2.map _).sum_eq]
      have hfl : ∀ k : ℕ,
          ((((rfmTable f ii di ai).rows.zip
            (impl ((rfmTable f ii di ai).rows.map Prod.snd) n 42)).map
              (fun p => (p.1.1, p.1.2, p.2))).filter
                (fun r => r.2.2 = k)).length
          = (((((rfmTable f ii di ai).rows.zip
            (impl ((rfmTable f ii di ai).rows.map Prod.snd) n 42)).map
              (fun p => (p.1.1, p.1.2, p.2))).map (fun r => r.2.2)).filter
                (fun x => x = k)).length := by
        intro k
        exact length_filter_map_eq
          (fun r : Option Cell × List ℚ × ℕ => r.2.2) _
          (fun x => decide (x = k))
      calc ((((((rfmTable f ii di ai).rows.zip
            (impl ((rfmTable f ii di ai).rows.map Prod.snd) n 42)).map
              (fun p => (p.1.1, p.1.2, p.2))).map (fun r => r.2.2)).dedup).map
            ((fun s : ℕ × List ℚ × ℕ => s.2.2) ∘ (fun k => (k,
              meanVec (((((rfmTable f ii di ai).rows.zip
                (impl ((rfmTable f ii di ai).rows.map Prod.snd) n 42)).map
                  (fun p => (p.1.1, p.1.2, p.2))).filter
                    (fun r => r.2.2 = k)).map (fun r => r.2.1)),
              ((((rfmTable f ii di ai).rows.zip
                (impl ((rfmTable f ii di ai).rows.map Prod.snd) n 42)).map
                  (fun p => (p.1.1, p.1.2, p.2))).filter
                    (fun r => r.2.2 = k)).length)))).sum
          = ((((((rfmTable f ii di ai).rows.zip
              (impl ((rfmTable f ii di ai).rows.map Prod.snd) n 42)).map
                (fun p => (p.1.1, p.1.2, p.2))).map (fun r => r.2.2)).dedup).map
              (fun k => (((((rfmTable f ii di ai).rows.zip
                (impl ((rfmTable f ii di ai).rows.map Prod.snd) n 42)).map
                  (fun p => (p.1.1, p.1.2, p.2))).map (fun r => r.2.2)).filter
                    (fun x => x = k)).length)).sum := by
            congr 1
            apply List.map_congr_left
            intro k _
            exact hfl k
        _ = ((((rfmTable f ii di ai).rows.zip
              (impl ((rfmTable f ii di ai).rows.map Prod.snd) n 42)).map
                (fun p => (p.1.1, p.1.2, p.2))).map (fun r => r.2.2)).length :=
            sum_filter_lengths _
        _ = (((rfmTable f ii di ai).rows.zip
              (impl ((rfmTable f ii di ai).rows.map Prod.snd) n 42)).map
                (fun p => (p.1.1, p.1.2, p.2))).length := List.length_map _ _

/-- Witness for C4: on the concrete transaction table (entity 3 dropped
for its negative amount) the summary's member counts sum to the number
of retained entities. -/
theorem rfm_segmentation_spec_witness :
    ∃ L S, executeSegmentation clusterStub frameRfm cfgRfm 2 = .ok (L, S) ∧
      (S.map (fun s => s.2.2)).sum = L.length ∧ L.length = 2 := by
  have hok : executeSegmentation clusterStub frameRfm cfgRfm 2
      = .ok ([(some (.num 1), [2, 2, 30], 0), (some (.num 2), [4, 1, 7], 0)],
             [(0, [3, 3/2, 37/2], 2)]) := by
    with_unfolding_all rfl
  refine ⟨_, _, hok, ?_, by decide⟩
  exact (rfm_segmentation_spec clusterStub
    (fun m k s => by simp [clusterStub]) frameRfm cfgRfm 2
    "id" "dt" "amt" 0 1 2 rfl (by decide) (by decide) (by decide)
    (by decide) (by decide) (by decide) (by decide) _ _ hok).2.2.2

theorem removePatFuel_congr (p : List Char) :
    ∀ (f₁ : ℕ), ∀ (f₂ : ℕ) (s : List Char), s.length ≤ f₁ → s.length ≤ f₂ →
      removePatFuel p f₁ s = removePatFuel p f₂ s := by
  intro f₁
  induction f₁ with
  | zero =>
    intro f₂ s h1 _
    have : s = [] := List.length_eq_zero.mp (Nat.le_zero.mp h1)
    subst this
    cases f₂ <;> rfl
  | succ g ih =>
    intro f₂ s h1 h2
    cases s with
    | nil => cases f₂ <;> rfl
    | cons c cs =>
      have hf2 : f₂ ≠ 0 := by
        simp only [List.length_cons] at h2
        omega
      obtain ⟨h, rfl⟩ := Nat.exists_eq_succ_of_ne_zero hf2
      simp only [removePatFuel]
      by_cases hcond : p ≠ [] ∧ p.isPrefixOf (c :: cs)
      · rw [if_pos hcond, if_pos hcond]
        have hp1 : 1 ≤ p.length := by
          cases p with
          | nil => exact absurd rfl hcond.1
          | cons x xs => simp
        apply ih
        · simp only [List.length_drop, List.length_cons]
          simp only [List.length_cons] at h1
          omega
        · simp only [List.length_drop, List.length_cons]
          simp only [List.length_cons] at h2
          omega
      · rw [if_neg hcond, if_neg hcond]
        have := ih h cs (by simp only [List.length_cons] at h1; omega)
          (by simp only [List.length_cons] at h2; omega)
        rw [this]

theorem removePat_cons (p : List Char) (c : Char) (cs : List Char) :
    removePat p (c :: cs)
      = if p ≠ [] ∧ p.isPrefixOf (c :: cs) then
          removePat p ((c :: cs).drop p.length)
        else c :: removePat p cs := by
  unfold removePat
  simp only [List.length_cons, removePatFuel]
  by_cases hcond : p ≠ [] ∧ p.isPrefixOf (c :: cs)
  · rw [if_pos hcond, if_pos hcond]
    have hp1 : 1 ≤ p.length := by
      cases p with
      | nil => exact absurd rfl hcond.1
      | cons x xs => simp
    apply removePatFuel_congr
    · simp only [List.length_drop, List.length_cons]
      omega
    · exact le_refl _
  · rw [if_neg hcond, if_neg hcond]

theorem removePat_cons_of_not_prefix {p : List Char} {c : Char}
    {cs : List Char} (h : p.isPrefixOf (c :: cs) = false) :
    removePat p (c :: cs) = c :: removePat p cs := by
  rw [removePat_cons, if_neg]
  rintro ⟨-, h2⟩
  rw [h] at h2
  cases h2

theorem removePat_nil (p : List Char) : removePat p [] = [] := rfl

theorem isPrefixOf_self_append (p s : List Char) :
    p.isPrefixOf (p ++ s) = true := by
  induction p with
  | nil => simp [List.isPrefixOf]
  | cons c cs ih =>
    show ((c == c) && cs.isPrefixOf (cs ++ s)) = true
    rw [ih]
    simp

theorem removePat_skip {p : List Char} {h0 : Char} (hp : p.head? = some h0) :
    ∀ (a s : List Char), h0 ∉ a → removePat p (a ++ s) = a ++ removePat p s := by
  intro a
  induction a with
  | nil => intro s _; rfl
  | cons c a' ih =>
    intro s hmem
    have hcne : h0 ≠ c := fun e => hmem (e ▸ List.mem_cons_self c a')
    obtain ⟨p', rfl⟩ : ∃ p', p = h0 :: p' := by
      cases p with
      | nil => cases hp
      | cons x xs =>
        simp only [List.head?_cons, Option.some.injEq] at hp
        exact ⟨xs, by rw [hp]⟩
    have hpre : (h0 :: p').isPrefixOf (c :: (a' ++ s)) = false := by
      show ((h0 == c) && p'.isPrefixOf (a' ++ s)) = false
      have : (h0 == c) = false := beq_eq_false_iff_ne.mpr hcne
      rw [this, Bool.false_and]
    rw [List.cons_append, removePat_cons_of_not_prefix hpre,
      ih s (fun hm => hmem (List.mem_cons_of_mem c hm)), List.cons_append]

theorem removePat_of_not_mem {p : List Char} {h0 : Char}
    (hp : p.head? = some h0) {s : List Char} (hs : h0 ∉ s) :
    removePat p s = s := by
  have h := removePat_skip hp s [] hs
  rw [List.append_nil, removePat_nil, List.append_nil] at h
  exact h

theorem removePat_consume {p : List Char} (hp : p ≠ []) (s : List Char) :
    removePat p (p ++ s) = removePat p s := by
  obtain ⟨c, p', rfl⟩ := List.exists_cons_of_ne_nil hp
  rw [List.cons_append, removePat_cons, if_pos
    ⟨hp, by rw [← List.cons_append]; exact isPrefixOf_self_append _ s⟩]
  congr 1
  rw [← List.cons_append, List.drop_left]

theorem cleanWrap_stage1 (p₁ t p₂ : List Char) (h1 : '\x60' ∉ p₁)
    (ht : '\x60' ∉ t) (h2 : '\x60' ∉ p₂) :
    removePat fenceJsonPat (wrapFenced p₁ t p₂)
      = p₁ ++ '\n' :: (t ++ '\n' :: '\x60' :: '\x60' :: '\x60' :: '\n' :: p₂) := by
  have hhead : fenceJsonPat.head? = some '\x60' := by decide
  have hne : fenceJsonPat ≠ [] := by decide
  have hshape : wrapFenced p₁ t p₂
      = p₁ ++ (fenceJsonPat
          ++ ('\n' :: (t ++ ['\n']) ++ ('\x60' :: '\x60' :: '\x60' :: '\n' :: p₂))) := by
    have hf3 : fencePat3 = ['\x60', '\x60', '\x60'] := by decide
    simp [wrapFenced, hf3, List.append_assoc]
  have hmid : ('\x60' : Char) ∉ ('\n' :: (t ++ ['\n'])) := by
    intro hm
    simp only [List.mem_cons, List.mem_append, List.mem_singleton] at hm
    rcases hm with h | h | h
    · exact absurd h (by decide)
    · exact ht h
    · exact absurd h (by decide)
  have e1 : fenceJsonPat.isPrefixOf ('\x60' :: '\x60' :: '\x60' :: '\n' :: p₂)
      = false := rfl
  have e2 : fenceJsonPat.isPrefixOf ('\x60' :: '\x60' :: '\n' :: p₂) = false := rfl
  have e3 : fenceJsonPat.isPrefixOf ('\x60' :: '\n' :: p₂) = false := rfl
  have hp2 : ('\x60' : Char) ∉ ('\n' :: p₂) := by
    intro hm
    rcases List.mem_cons.mp hm with h | h
    · exact absurd h (by decide)
    · exact h2 h
  rw [hshape, removePat_skip hhead p₁ _ h1, removePat_consume hne,
    removePat_skip hhead _ _ hmid,
    removePat_cons_of_not_prefix e1, removePat_cons_of_not_prefix e2,
    removePat_cons_of_not_prefix e3, removePat_of_not_mem hhead hp2]
  simp [List.append_assoc]

theorem cleanWrap_stage2 (p₁ t p₂ : List Char) (h1 : '\x60' ∉ p₁)
    (ht : '\x60' ∉ t) (h2 : '\x60' ∉ p₂) :
    removePat fencePat3
        (p₁ ++ '\n' :: (t ++ '\n' :: '\x60' :: '\x60' :: '\x60' :: '\n' :: p₂))
      = p₁ ++ '\n' :: (t ++ '\n' :: '\n' :: p₂) := by
  have hhead : fencePat3.head? = some '\x60' := by decide
  have hne : fencePat3 ≠ [] := by decide
  have hf3 : fencePat3 = ['\x60', '\x60', '\x60'] := by decide
  have hpre : ('\x60' : Char) ∉ (p₁ ++ '\n' :: (t ++ ['\n'])) := by
    intro hm
    simp only [List.mem_append, List.mem_cons, List.mem_singleton] at hm
    rcases hm with h | h | h | h
    · exact h1 h
    · exact absurd h (by decide)
    · exact ht h
    · exact absurd h (by decide)
  have hp2 : ('\x60' : Char) ∉ ('\n' :: p₂) := by
    intro hm
    rcases List.mem_cons.mp hm with h | h
    · exact absurd h (by decide)
    · exact h2 h
  have hshape : p₁ ++ '\n' :: (t ++ '\n' :: '\x60' :: '\x60' :: '\x60' :: '\n' :: p₂)
      = (p₁ ++ '\n' :: (t ++ ['\n'])) ++ (fencePat3 ++ ('\n' :: p₂)) := by
    simp [hf3, List.append_assoc]
  rw [hshape, removePat_skip hhead _ _ hpre, removePat_consume hne,
    removePat_of_not_mem hhead hp2]
  simp [List.append_assoc]

theorem dropWhile_append_decomp (x : List Char) (c : Char)
    (hc : isPyWs c = false) (ys : List Char) :
    ∃ a, (x ++ (c :: ys)).dropWhile isPyWs = a ++ (c :: ys)
      ∧ ∀ e ∈ a, e ∈ x := by
  rw [List.dropWhile_append]
  by_cases h : ((x.dropWhile isPyWs).isEmpty) = true
  · rw [if_pos h]
    refine ⟨[], ?_, by simp⟩
    simp [List.dropWhile_cons, hc]
  · rw [if_neg h]
    exact ⟨x.dropWhile isPyWs, rfl,
      fun e he => (List.dropWhile_sublist _).subset he⟩

theorem pyStrip_decomp (p₁ t p₂ : List Char) (hh : t.head? = some lbrace)
    (hl : t.getLast? = some rbrace) :
    ∃ a b, pyStrip (p₁ ++ '\n' :: (t ++ '\n' :: '\n' :: p₂)) = a ++ (t ++ b)
      ∧ (∀ x ∈ a, x ∈ p₁ ∨ x = '\n') ∧ (∀ x ∈ b, x ∈ p₂ ∨ x = '\n') := by
  obtain ⟨t', rfl⟩ : ∃ t', t = lbrace :: t' := by
    cases t with
    | nil => cases hh
    | cons c u =>
      simp only [List.head?_cons, Option.some.injEq] at hh
      exact ⟨u, by rw [hh]⟩
  have hrev : (lbrace :: t').reverse.head? = some rbrace := by
    rw [List.head?_reverse]
    exact hl
  obtain ⟨u', hu'⟩ : ∃ u', (lbrace :: t').reverse = rbrace :: u' := by
    cases hrc : (lbrace :: t').reverse with
    | nil => rw [hrc] at hrev; cases hrev
    | cons c u =>
      rw [hrc] at hrev
      simp only [List.head?_cons, Option.some.injEq] at hrev
      exact ⟨u, by rw [hrev]⟩
  unfold pyStrip
  have hshape : p₁ ++ '\n' :: ((lbrace :: t') ++ '\n' :: '\n' :: p₂)
      = (p₁ ++ ['\n']) ++ (lbrace :: (t' ++ '\n' :: '\n' :: p₂)) := by
    simp [List.append_assoc]
  obtain ⟨a, ha, hain⟩ := dropWhile_append_decomp (p₁ ++ ['\n']) lbrace
    (by decide) (t' ++ '\n' :: '\n' :: p₂)
  rw [hshape, ha]
  have hshape2 : (a ++ (lbrace :: (t' ++ '\n' :: '\n' :: p₂))).reverse
      = (('\n' :: '\n' :: p₂).reverse)
          ++ (rbrace :: (u' ++ a.reverse)) := by
    rw [show (lbrace :: (t' ++ '\n' :: '\n' :: p₂))
        = ((lbrace :: t') ++ ('\n' :: '\n' :: p₂)) by simp,
      List.reverse_append, List.reverse_append, hu']
    simp [List.append_assoc]
  obtain ⟨b0, hb0, hb0in⟩ := dropWhile_append_decomp
    (('\n' :: '\n' :: p₂).reverse) rbrace (by decide) (u' ++ a.reverse)
  rw [hshape2, hb0]
  have htEq : (lbrace :: t') = u'.reverse ++ [rbrace] := by
    have := congrArg List.reverse hu'
    rw [List.reverse_reverse] at this
    rw [this]
    simp
  refine ⟨a, b0.reverse, ?_, ?_, ?_⟩
  · rw [List.reverse_append, List.reverse_cons, htEq]
    simp [List.append_assoc]
  · intro x hx
    have := hain x hx
    simp only [List.mem_append, List.mem_singleton] at this
    rcases this with h | h
    · exact Or.inl h
    · exact Or.inr h
  · intro x hx
    have := hb0in x (List.mem_reverse.mp hx)
    rw [List.mem_reverse] at this
    rcases List.mem_cons.mp this with h | h
    · exact Or.inr h
    · rcases List.mem_cons.mp h with h' | h'
      · exact Or.inr h'
      · exact Or.inl h'

theorem braceSpan_decomp (a t b : List Char) (ha : lbrace ∉ a)
    (hb : rbrace ∉ b) (hh : t.head? = some lbrace)
    (hl : t.getLast? = some rbrace) :
    braceSpan (a ++ (t ++ b)) = t := by
  obtain ⟨t', rfl⟩ : ∃ t', t = lbrace :: t' := by
    cases t with
    | nil => cases hh
    | cons c u =>
      simp only [List.head?_cons, Option.some.injEq] at hh
      exact ⟨u, by rw [hh]⟩
  have hfind : pyFind lbrace (a ++ ((lbrace :: t') ++ b)) = some a.length := by
    unfold pyFind
    rw [List.findIdx?_append]
    have hnla : List.findIdx? (· = lbrace) a = none := by
      rw [List.findIdx?_eq_none_iff]
      intro x hx
      simp only [decide_eq_false_iff_not]
      intro e
      exact ha (e ▸ hx)
    have h0 : List.findIdx? (fun x => decide (x = lbrace))
        (lbrace :: (t' ++ b)) = some 0 := rfl
    rw [hnla, Option.none_or]
    rw [show (lbrace :: t') ++ b = lbrace :: (t' ++ b) from rfl, h0]
    simp
  have hrevt : (lbrace :: t').reverse.head? = some rbrace := by
    rw [List.head?_reverse]
    exact hl
  obtain ⟨u', hu'⟩ : ∃ u', (lbrace :: t').reverse = rbrace :: u' := by
    cases hrc : (lbrace :: t').reverse with
    | nil => rw [hrc] at hrevt; cases hrevt
    | cons c u =>
      rw [hrc] at hrevt
      simp only [List.head?_cons, Option.some.injEq] at hrevt
      exact ⟨u, by rw [hrevt]⟩
  have hrfind : pyRfind rbrace (a ++ ((lbrace :: t') ++ b))
      = some (a.length + (lbrace :: t').length - 1) := by
    unfold pyRfind
    have hrsh : (a ++ ((lbrace :: t') ++ b)).reverse
        = b.reverse ++ (rbrace :: (u' ++ a.reverse)) := by
      rw [List.reverse_append, List.reverse_append, hu']
      simp [List.append_assoc]
    rw [hrsh, List.findIdx?_append]
    have hnb : List.findIdx? (· = rbrace) b.reverse = none := by
      rw [List.findIdx?_eq_none_iff]
      intro x hx
      simp only [decide_eq_false_iff_not]
      intro e
      exact hb (e ▸ List.mem_reverse.mp hx)
    have h0 : List.findIdx? (fun x => decide (x = rbrace))
        (rbrace :: (u' ++ a.reverse)) = some 0 := rfl
    rw [hnb, Option.none_or, h0]
    have hlen : (a ++ ((lbrace :: t') ++ b)).length
        = a.length + ((lbrace :: t').length + b.length) := by
      simp only [List.length_append, List.length_cons]
    rw [hlen, List.length_reverse]
    simp only [Option.map_some', List.length_cons]
    congr 1
    omega
  unfold braceSpan
  simp only [hfind, hrfind]
  have hen : a.length + (lbrace :: t').length - 1 + 1
      = (a ++ (lbrace :: t')).length := by
    simp only [List.length_cons, List.length_append]
    omega
  rw [hen]
  have hsh : a ++ ((lbrace :: t') ++ b) = (a ++ (lbrace :: t')) ++ b :=
    (List.append_assoc _ _ _).symm
  rw [hsh, List.take_left]
  have hdr : a.length = (a ++ (lbrace :: t')).length - (lbrace :: t').length := by
    simp
  rw [List.drop_left]

theorem pyStrip_id {t : List Char} (hh : t.head? = some lbrace)
    (hl : t.getLast? = some rbrace) : pyStrip t = t := by
  obtain ⟨t', rfl⟩ : ∃ t', t = lbrace :: t' := by
    cases t with
    | nil => cases hh
    | cons c u =>
      simp only [List.head?_cons, Option.some.injEq] at hh
      exact ⟨u, by rw [hh]⟩
  obtain ⟨u', hu'⟩ : ∃ u', (lbrace :: t').reverse = rbrace :: u' := by
    have hrevt : (lbrace :: t').reverse.head? = some rbrace := by
      rw [List.head?_reverse]
      exact hl
    cases hrc : (lbrace :: t').reverse with
    | nil => rw [hrc] at hrevt; cases hrevt
    | cons c u =>
      rw [hrc] at hrevt
      simp only [List.head?_cons, Option.some.injEq] at hrevt
      exact ⟨u, by rw [hrevt]⟩
  unfold pyStrip
  rw [List.dropWhile_cons, if_neg (by decide), hu', List.dropWhile_cons,
    if_neg (by decide), ← hu', List.reverse_reverse]

/-- Claim C7 (confirmed): for every JSON-object text `t` (it starts with
a left brace, ends with a right brace, and — as does the surrounding
prose — contains no backtick, so that the fence stripping is
inert on it), and all leading prose without a left brace and trailing
prose without a right brace, `_clean_json`'s clean-and-slice stage maps
the fenced, prose-surrounded wrapping and the bare text to the identical
cleaned string `t`, so any parse of the two (in particular
`json.loads`) yields the same object: the function strips the fencing
and parses exactly the span from the first left brace to the last right
brace. -/
theorem clean_json_roundtrip {α : Type} (parse : List Char → α)
    (p₁ p₂ t : List Char)
    (h1b : lbrace ∉ p₁) (h1t : '\x60' ∉ p₁)
    (h2b : rbrace ∉ p₂) (h2t : '\x60' ∉ p₂)
    (htk : '\x60' ∉ t) (hh : t.head? = some lbrace)
    (hl : t.getLast? = some rbrace) :
    cleanJsonText (wrapFenced p₁ t p₂) = t ∧
    cleanJsonText t = t ∧
    parse (cleanJsonText (wrapFenced p₁ t p₂)) = parse (cleanJsonText t) := by
  have hjson : fenceJsonPat.head? = some '\x60' := by decide
  have h3 : fencePat3.head? = some '\x60' := by decide
  have hwrap : cleanJsonText (wrapFenced p₁ t p₂) = t := by
    unfold cleanJsonText
    rw [cleanWrap_stage1 p₁ t p₂ h1t htk h2t,
      cleanWrap_stage2 p₁ t p₂ h1t htk h2t]
    obtain ⟨a, b, hstrip, hain, hbin⟩ := pyStrip_decomp p₁ t p₂ hh hl
    rw [hstrip]
    apply braceSpan_decomp
    · intro hm
      rcases hain lbrace hm with h | h
      · exact h1b h
      · exact absurd h (by decide)
    · intro hm
      rcases hbin rbrace hm with h | h
      · exact h2b h
      · exact absurd h (by decide)
    · exact hh
    · exact hl
  have hbare : cleanJsonText t = t := by
    unfold cleanJsonText
    rw [removePat_of_not_mem hjson htk, removePat_of_not_mem h3 htk,
      pyStrip_id hh hl]
    have := braceSpan_decomp [] t [] (by simp) (by simp) hh hl
    simpa using this
  exact ⟨hwrap, hbare, by rw [hwrap, hbare]⟩

/-- Witness for C7: a concrete JSON object wrapped in a json-tagged
fence and surrounded by prose cleans to exactly the bare object text. -/
theorem clean_json_roundtrip_witness :
    cleanJsonText (wrapFenced proseW1 jsonW proseW2) = jsonW ∧
    cleanJsonText jsonW = jsonW := by
  have h := clean_json_roundtrip (α := List Char) (fun s => s)
    proseW1 proseW2 jsonW (by decide) (by decide) (by decide) (by decide)
    (by decide) (by decide) (by decide)
  exact ⟨h.1, h.2.1⟩

end Stallion
